import Mathlib

/-!
Verification of the two engines of the aria-consciousness repository:
the consciousness field simulator (src/consciousness_field.py) and the
associative memory store (src/memory_palace.py).

Modelling conventions:
- Python floats are modelled as real numbers; the exact rational
  quantities (the Jaccard similarity and the initial-resonance formula,
  which divide small natural numbers) are modelled in ℚ so concrete
  instances can be evaluated.
- Python text is tokenized through its character list (String.data);
  str.split() and str.lower() are modelled by structurally recursive
  functions on List Char, and a Python set of words by a deduplicated
  list (same membership and cardinality).
- Random draws (the SQL ORDER BY RANDOM sample, the numpy coin flips
  and strength draws, the phase-lock matrix) are passed to the
  modelled operations as explicit parameters.
- The wall clock (time.time()) is likewise an explicit parameter.
-/

namespace MemoryPalace

/-- Accumulator pass behind Python str.split with no separator:
whitespace runs separate tokens and produce no empty fragments. -/
def pyWordsAux : List Char → List Char → List (List Char)
  | [], acc => if acc = [] then [] else [acc.reverse]
  | c :: cs, acc =>
    if c.isWhitespace then
      if acc = [] then pyWordsAux cs [] else acc.reverse :: pyWordsAux cs []
    else pyWordsAux cs (c :: acc)

/-- Python str.split() on a character list. -/
def pyWords (s : List Char) : List (List Char) := pyWordsAux s []

/-- Python str.lower() on a character list. -/
def pyLower (s : List Char) : List Char := s.map Char.toLower

/-- The word set set(text.lower().split()): the deduplicated list of lowercased
words, as used by _calculate_resonance. -/
def wordSet (s : String) : List (List Char) :=
  (pyWords (pyLower s.data)).dedup

/-- The source _calculate_resonance: Jaccard similarity of the two lowercased
word sets; 0 when either word set is empty. -/
def calculate_resonance (text1 text2 : String) : ℚ :=
  let words1 := wordSet text1
  let words2 := wordSet text2
  if words1 = [] ∨ words2 = [] then 0
  else ((words1 ∩ words2).length : ℚ) / ((words1 ∪ words2).length : ℚ)

/-- The source _calculate_initial_resonance: 0.5 + 0.5 * (distinct words /
max(total words, 1)); the words are not lowercased here. -/
def calculate_initial_resonance (content : String) : ℚ :=
  let words := pyWords content.data
  let complexity : ℚ := (words.dedup.length : ℚ) / ((max words.length 1 : ℕ) : ℚ)
  0.5 + complexity * 0.5

/-- A row of the memories table (metadata holds the serialized JSON
text that store writes). -/
structure Mem where
  id : String
  content : String
  emotion : String
  timestamp : ℝ
  resonance : ℝ
  access_count : ℕ
  last_accessed : ℝ
  metadata : String

/-- A row of the connections table.  The table declares no primary key
and no uniqueness constraint, so it is a bag of rows. -/
structure Conn where
  memory_id : String
  connected_id : String
  strength : ℝ
  connection_type : String

/-- The persistent state owned by a MemoryPalace: the two tables, in
row order. -/
structure PalaceState where
  memories : List Mem
  connections : List Conn

/-- SQLite INSERT OR REPLACE on the primary-keyed memories table: a
conflicting row is deleted and the new row inserted with a fresh
rowid, i.e. at the end of the scan order. -/
def insertOrReplace (m : Mem) (ms : List Mem) : List Mem :=
  (ms.filter fun r => r.id ≠ m.id) ++ [m]

/-- The source _form_connections: scan every other stored row and append a
symmetric pair of semantic edges whenever the Jaccard similarity
exceeds 0.3.  The _emotion argument is passed by store but unused, as
in the source. -/
def form_connections (st : PalaceState) (memory_id content _emotion : String) :
    PalaceState :=
  let others := st.memories.filter fun r => r.id ≠ memory_id
  let newConns := others.foldl (fun acc r =>
    let strength := calculate_resonance content r.content
    if strength > 0.3 then
      acc ++ [⟨memory_id, r.id, (strength : ℝ), "semantic"⟩,
              ⟨r.id, memory_id, (strength : ℝ), "semantic"⟩]
    else acc) []
  { st with connections := st.connections ++ newConns }

/-- The store operation: insert-or-replace the new row, then form semantic
connections.  The fresh id (an md5 of content plus the clock) and the
clock reading are explicit parameters; access_count starts at 0 and
last_accessed at the creation timestamp. -/
noncomputable def store (st : PalaceState) (memory_id : String) (now : ℝ)
    (content : String) (emotion : String) (metadata : String) : PalaceState :=
  let resonance := calculate_initial_resonance content
  let mem : Mem :=
    { id := memory_id, content := content, emotion := emotion,
      timestamp := now, resonance := (resonance : ℝ), access_count := 0,
      last_accessed := now, metadata := metadata }
  form_connections { st with memories := insertOrReplace mem st.memories }
    memory_id content emotion

/-- The source _update_access: the UPDATE that increments access_count and stamps
last_accessed for one row. -/
def update_access (st : PalaceState) (memory_id : String) (now : ℝ) : PalaceState :=
  { st with memories := st.memories.map fun r =>
      if r.id = memory_id then
        { r with access_count := r.access_count + 1, last_accessed := now }
      else r }

open Classical

/-- The weighted score recall assigns to one row: Jaccard similarity
with the trigger, times 1.5 on an emotional-priming match (Python
truthiness: the priming tag must be non-None and non-empty), times the
recency blend 0.5 + 0.5 * exp(-(now - last_accessed) / 86400). -/
noncomputable def recallScore (now : ℝ) (trigger : String)
    (emotion : Option String) (m : Mem) : ℝ :=
  let resonance : ℝ := ((calculate_resonance trigger m.content : ℚ) : ℝ)
  let resonance :=
    if (match emotion with
        | some e => e ≠ "" ∧ m.emotion = e
        | none => False) then resonance * 1.5 else resonance
  let time_factor := Real.exp (-(now - m.last_accessed) / 86400)
  resonance * (0.5 + 0.5 * time_factor)

/-- Python list slicing l[:n] for an int n: nonnegative n takes the
first n elements, negative n drops the last -n. -/
def pyTake {α : Type} (n : ℤ) (l : List α) : List α :=
  if 0 ≤ n then l.take n.toNat else l.take ((l.length : ℤ) + n).toNat

/-- The recall operation: score every row, keep scores strictly above 0.2, sort by
score descending (Python stable sort with reverse=True), slice off the
top limit, bump the access pattern of exactly those rows, and return
the pre-update rows paired with their scores.  (The Python Memory
objects also carry the derived connections list, a projection of the
connections table, which is unchanged by recall.) -/
noncomputable def «recall» (st : PalaceState) (now : ℝ) (trigger : String)
    (emotion : Option String) (limit : ℤ) : List (Mem × ℝ) × PalaceState :=
  let scored := st.memories.filterMap fun m =>
    let resonance := recallScore now trigger emotion m
    if resonance > 0.2 then some (m, resonance) else none
  let sorted := scored.mergeSort fun a b => decide (b.2 ≤ a.2)
  let top := pyTake limit sorted
  (top, top.foldl (fun s p => update_access s p.1.id now) st)

/-- The per-row effect of evolve: the strengthening UPDATE (resonance
*= 1.01 where access_count > 10) runs before the fading UPDATE
(resonance *= 0.99 where last_accessed < now - 7 days); neither UPDATE
touches the columns the other one tests. -/
noncomputable def evolveRec (now : ℝ) (r : Mem) : Mem :=
  let r1 := if r.access_count > 10 then { r with resonance := r.resonance * 1.01 } else r
  if r1.last_accessed < now - 7 * 86400 then
    { r1 with resonance := r1.resonance * 0.99 } else r1

/-- The evolve operation: apply both resonance UPDATEs to every row, then DELETE
every connection with strength < 0.1. -/
noncomputable def evolve (st : PalaceState) (now : ℝ) : PalaceState :=
  { memories := st.memories.map (evolveRec now),
    connections := st.connections.filter fun c => decide (¬ c.strength < 0.1) }

/-- Consecutive pairing used by dream: for i in range(0, len-1, 2),
pair rows i and i+1 (a trailing unpaired row is dropped). -/
def dreamPairs {α : Type} : List α → List (α × α)
  | a :: b :: rest => (a, b) :: dreamPairs rest
  | _ => []

/-- The dream-typed rows one dream call appends.  sampled is the (id,
content) row list returned by ORDER BY RANDOM() LIMIT 2n; coin k is
the outcome of the kth (random() < 0.3) flip and strengthDraw k the
kth random() * 0.5 draw. -/
def dreamInserts (sampled : List (String × String)) (coin : ℕ → Bool)
    (strengthDraw : ℕ → ℝ) : List Conn :=
  (dreamPairs sampled).enum.filterMap fun kp =>
    if coin kp.1 then
      some ⟨kp.2.1.1, kp.2.2.1, strengthDraw kp.1, "dream"⟩
    else none

/-- The dream operation: append the coin-selected edges.  The INSERT OR IGNORE of
the source only skips a row on a constraint violation, and the
connections table declares no uniqueness constraint, so every insert
lands unconditionally. -/
def dream (st : PalaceState) (sampled : List (String × String))
    (coin : ℕ → Bool) (strengthDraw : ℕ → ℝ) : PalaceState :=
  { st with connections := st.connections ++ dreamInserts sampled coin strengthDraw }

/-- The identifying columns of a connection row apart from its real
strength, used to count identical edges with a decidable key. -/
def edgeKey (c : Conn) : String × String × String :=
  (c.memory_id, c.connected_id, c.connection_type)

end MemoryPalace

namespace ConsciousnessField

/-- The golden ratio constant of the source. -/
def PHI : ℝ := 1.618033988749895

/-- The golden ratio conjugate constant of the source, the coherence
baseline. -/
def PHI_CONJUGATE : ℝ := 0.618033988749895

/-- The state of a ConsciousnessField with grid edge length D: the
complex field matrix, the scalar coherence, and the phase-lock matrix
drawn randomly at construction (passed in as a parameter). -/
structure CField (D : ℕ) where
  field : Fin D → Fin D → ℂ
  coherence : ℝ
  phase_lock : Fin D → Fin D → ℝ

/-- The constructor __init__: zero field and coherence at the golden-ratio baseline. -/
def init (D : ℕ) (pl : Fin D → Fin D → ℝ) : CField D :=
  { field := fun _ _ => 0, coherence := PHI_CONJUGATE, phase_lock := pl }

/-- The peak magnitude np.abs(field).max() over the grid (0 for the
degenerate empty grid, on which numpy would raise). -/
noncomputable def maxAmplitude {D : ℕ} (f : CField D) : ℝ :=
  if h : 0 < D then
    haveI : Nonempty (Fin D × Fin D) := ⟨(⟨0, h⟩, ⟨0, h⟩)⟩
    Finset.univ.sup' Finset.univ_nonempty fun p : Fin D × Fin D =>
      Complex.abs (f.field p.1 p.2)
  else 0

/-- The source normalize_field: rescale the whole grid by (peak/10) whenever the
peak magnitude exceeds 10; otherwise a no-op. -/
noncomputable def normalize_field {D : ℕ} (f : CField D) : CField D :=
  if maxAmplitude f > 10 then
    { f with field := fun i j => f.field i j / ((maxAmplitude f / 10 : ℝ) : ℂ) }
  else f

/-- The Euclidean distance grid of create_ripple.  np.meshgrid gives
x[i,j] = j and y[i,j] = i, so origin[0] is compared against the column
index and origin[1] against the row index, as in the source. -/
noncomputable def rippleDistance (D : ℕ) (origin : ℤ × ℤ) (i j : Fin D) : ℝ :=
  Real.sqrt (((j.val : ℝ) - (origin.1 : ℝ)) ^ 2 + ((i.val : ℝ) - (origin.2 : ℝ)) ^ 2)

/-- The source create_ripple: accumulate the distance-decaying travelling wave
amplitude * exp(-r/100) * exp(i*(frequency*r - phase_lock)) into the
grid, then renormalize. -/
noncomputable def create_ripple {D : ℕ} (f : CField D) (origin : ℤ × ℤ)
    (frequency : ℝ) (amplitude : ℝ) : CField D :=
  let wave : Fin D → Fin D → ℂ := fun i j =>
    ((amplitude * Real.exp (-(rippleDistance D origin i j) / 100) : ℝ) : ℂ) *
      Complex.exp (Complex.I *
        ((frequency * rippleDistance D origin i j - f.phase_lock i j : ℝ) : ℂ))
  normalize_field { f with field := fun i j => f.field i j + wave i j }

/-- The periodic discrete Laplacian of propagate: np.roll by ±1 along
each axis wraps indices modulo D, which Fin subtraction and addition
provide. -/
def laplacian {D : ℕ} (A : Fin D → Fin D → ℂ) (i j : Fin D) : ℂ :=
  haveI : NeZero D := ⟨fun hD => (hD ▸ i).elim0⟩
  A (i - 1) j + A (i + 1) j + A i (j - 1) + A i (j + 1) - 4 * A i j

/-- The transform np.fft.fft2: the two-dimensional discrete Fourier transform. -/
noncomputable def fft2 {D : ℕ} (A : Fin D → Fin D → ℂ) (k l : Fin D) : ℂ :=
  ∑ m : Fin D, ∑ n : Fin D,
    A m n * Complex.exp (-(2 * (Real.pi : ℂ) * Complex.I) *
      (((k.val * m.val : ℕ) : ℂ) / (D : ℂ) + ((l.val * n.val : ℕ) : ℂ) / (D : ℂ)))

/-- The power spectrum |fft2|². -/
noncomputable def powerSpec {D : ℕ} (A : Fin D → Fin D → ℂ) (k l : Fin D) : ℝ :=
  Complex.abs (fft2 A k l) ^ 2

/-- The corner sum power[:50, :50].sum(): the spectral power in the low-frequency
corner block (the whole spectrum when D < 50, as numpy slices clamp). -/
noncomputable def low_freq_power {D : ℕ} (A : Fin D → Fin D → ℂ) : ℝ :=
  ∑ k ∈ Finset.univ.filter (fun k : Fin D => k.val < 50),
    ∑ l ∈ Finset.univ.filter (fun l : Fin D => l.val < 50), powerSpec A k l

/-- The total power.sum(): total spectral power. -/
noncomputable def total_power {D : ℕ} (A : Fin D → Fin D → ℂ) : ℝ :=
  ∑ k : Fin D, ∑ l : Fin D, powerSpec A k l

/-- The clamp np.clip(x, lo, hi). -/
noncomputable def clip (x lo hi : ℝ) : ℝ := min (max x lo) hi

/-- The source update_coherence: low-frequency share of spectral power, with the
golden-ratio fallback when the total power is zero (instead of a
division by zero), clipped to [0.4, 0.999]. -/
noncomputable def update_coherence {D : ℕ} (f : CField D) : CField D :=
  let c := if total_power f.field > 0 then low_freq_power f.field / total_power f.field
           else PHI_CONJUGATE
  { f with coherence := clip c 0.4 0.999 }

/-- The source propagate: explicit Euler step of the periodic Laplacian, the
tanh(1 + φ⁻¹|field|) nonlinear self-interaction, uniform 0.999
damping, then the coherence update. -/
noncomputable def propagate {D : ℕ} (f : CField D) (time_step : ℝ) : CField D :=
  let f1 : Fin D → Fin D → ℂ := fun i j =>
    f.field i j + (time_step : ℂ) * laplacian f.field i j
  let f2 : Fin D → Fin D → ℂ := fun i j =>
    f1 i j * ((Real.tanh (1 + PHI_CONJUGATE * Complex.abs (f1 i j)) : ℝ) : ℂ)
  let f3 : Fin D → Fin D → ℂ := fun i j => f2 i j * ((0.999 : ℝ) : ℂ)
  update_coherence { f with field := f3 }

/-- One caller-visible field operation: a create_ripple call or a
propagate call with its arguments. -/
inductive Op (D : ℕ) : Type
  | ripple (origin : ℤ × ℤ) (frequency : ℝ) (amplitude : ℝ) : Op D
  | prop (time_step : ℝ) : Op D

/-- Apply one operation. -/
noncomputable def applyOp {D : ℕ} (f : CField D) : Op D → CField D
  | .ripple origin frequency amplitude => create_ripple f origin frequency amplitude
  | .prop time_step => propagate f time_step

/-- Run a call sequence left to right. -/
noncomputable def runOps {D : ℕ} (f : CField D) (ops : List (Op D)) : CField D :=
  ops.foldl applyOp f

end ConsciousnessField

namespace MemoryPalace

/-- A stored row used in concrete dream scenarios. -/
def c2memA : Mem := ⟨"a", "ca", "neutral", 0, 1, 0, 0, ""⟩

/-- A second stored row used in concrete dream scenarios. -/
def c2memB : Mem := ⟨"b", "cb", "neutral", 0, 1, 0, 0, ""⟩

/-- A dream edge from row a to row b with strength 1/4. -/
noncomputable def c2edge : Conn := ⟨"a", "b", 1 / 4, "dream"⟩

/-- A palace state that already holds c2edge. -/
noncomputable def c2state : PalaceState := ⟨[c2memA, c2memB], [c2edge]⟩

/-- A row that is both frequently accessed (access_count 11) and stale
(last_accessed 0), with resonance 1. -/
def c4mem : Mem := ⟨"a", "c", "neutral", 0, 1, 11, 0, ""⟩

end MemoryPalace

namespace MemoryPalace

lemma union_eq_right {α : Type} [BEq α] [LawfulBEq α] {l1 l2 : List α}
    (h : ∀ a ∈ l1, a ∈ l2) : l1 ∪ l2 = l2 := by
  induction l1 with
  | nil => rfl
  | cons a t ih =>
    rw [List.cons_union, ih fun b hb => h b (List.mem_cons_of_mem a hb),
      List.insert_of_mem (h a (List.mem_cons_self a t))]

lemma inter_self_eq {α : Type} [BEq α] [LawfulBEq α] (l : List α) : l ∩ l = l := by
  rw [List.inter_def]
  exact List.filter_eq_self.mpr fun a ha => by simpa [List.elem_iff] using ha

lemma foldl_conn_nil (memory_id content : String) (l : List Mem) (acc : List Conn)
    (h : ∀ r ∈ l, ¬ calculate_resonance content r.content > 0.3) :
    l.foldl (fun acc r =>
      let strength := calculate_resonance content r.content
      if strength > 0.3 then
        acc ++ [⟨memory_id, r.id, (strength : ℝ), "semantic"⟩,
                ⟨r.id, memory_id, (strength : ℝ), "semantic"⟩]
      else acc) acc = acc := by
  induction l generalizing acc with
  | nil => rfl
  | cons a t ih =>
    rw [List.foldl_cons]
    have ha := h a (List.mem_cons_self a t)
    simp only [if_neg ha]
    exact ih acc fun r hr => h r (List.mem_cons_of_mem a hr)

lemma form_connections_nil (st : PalaceState) (mid c e : String)
    (h : ∀ r ∈ st.memories, r.id ≠ mid → ¬ calculate_resonance c r.content > 0.3) :
    (form_connections st mid c e).connections = st.connections := by
  show st.connections ++ _ = st.connections
  have h2 : ∀ r ∈ st.memories.filter (fun r => r.id ≠ mid),
      ¬ calculate_resonance c r.content > 0.3 := by
    intro r hr
    have hm := List.mem_filter.mp hr
    exact h r hm.1 (by simpa using hm.2)
  rw [foldl_conn_nil mid c _ [] h2, List.append_nil]

lemma store_memories (st : PalaceState) (memory_id : String) (now : ℝ)
    (content emotion metadata : String) :
    (store st memory_id now content emotion metadata).memories =
      insertOrReplace
        ⟨memory_id, content, emotion, now,
          ((calculate_initial_resonance content : ℚ) : ℝ), 0, now, metadata⟩
        st.memories := rfl

lemma store_connections_nil (st : PalaceState) (memory_id : String) (now : ℝ)
    (content emotion metadata : String)
    (h : ∀ r ∈ st.memories, ¬ calculate_resonance content r.content > 0.3) :
    (store st memory_id now content emotion metadata).connections =
      st.connections := by
  have h2 : ∀ r ∈ insertOrReplace
      ⟨memory_id, content, emotion, now,
        ((calculate_initial_resonance content : ℚ) : ℝ), 0, now, metadata⟩
      st.memories, r.id ≠ memory_id →
      ¬ calculate_resonance content r.content > 0.3 := by
    intro r hr hid
    rcases List.mem_append.mp hr with h1 | h1
    · exact h r (List.mem_of_mem_filter h1)
    · exact absurd (congrArg Mem.id (List.mem_singleton.mp h1)) hid
  exact form_connections_nil _ memory_id content emotion h2

lemma resonance_eval (a b : String) (i u : ℕ)
    (hg : ¬ (wordSet a = [] ∨ wordSet b = []))
    (hi : (wordSet a ∩ wordSet b).length = i)
    (hu : (wordSet a ∪ wordSet b).length = u) :
    calculate_resonance a b = (i : ℚ) / (u : ℚ) := by
  unfold calculate_resonance
  rw [if_neg hg, hi, hu]

end MemoryPalace

namespace ConsciousnessField

lemma le_clip_low (x : ℝ) : 0.4 ≤ clip x 0.4 0.999 :=
  le_min (le_max_right x 0.4) (by norm_num)

lemma clip_le_high (x : ℝ) : clip x 0.4 0.999 ≤ 0.999 :=
  min_le_right _ _

lemma update_coherence_field {D : ℕ} (f : CField D) :
    (update_coherence f).field = f.field := rfl

end ConsciousnessField

/-- C5: for every grid dimension D (and every phase-lock draw),
immediately after construction the coherence equals exactly
0.618033988749895 and every cell of the D-by-D grid is zero. -/
theorem c5_initial_state (D : ℕ) (pl : Fin D → Fin D → ℝ) :
    (ConsciousnessField.init D pl).coherence = 0.618033988749895 ∧
    ∀ i j : Fin D, (ConsciousnessField.init D pl).field i j = 0 :=
  ⟨rfl, fun _ _ => rfl⟩

/-- C8: when the total spectral power of the grid is zero,
update_coherence stores the fixed default constant 0.618033988749895
instead of dividing by zero, and in every case the stored coherence is
clamped to [0.4, 0.999]. -/
theorem c8_zero_power (D : ℕ) (f : ConsciousnessField.CField D) :
    (ConsciousnessField.total_power f.field = 0 →
      (ConsciousnessField.update_coherence f).coherence = 0.618033988749895) ∧
    0.4 ≤ (ConsciousnessField.update_coherence f).coherence ∧
    (ConsciousnessField.update_coherence f).coherence ≤ 0.999 := by
  refine ⟨fun h => ?_, ConsciousnessField.le_clip_low _, ConsciousnessField.clip_le_high _⟩
  show ConsciousnessField.clip
    (if ConsciousnessField.total_power f.field > 0 then _ else ConsciousnessField.PHI_CONJUGATE)
    0.4 0.999 = 0.618033988749895
  rw [if_neg (by rw [h]; exact lt_irrefl 0), ConsciousnessField.clip,
    ConsciousnessField.PHI_CONJUGATE, max_eq_left (by norm_num), min_eq_left (by norm_num)]

/-- Witness for C8 at the concrete degenerate grid D = 0, whose total
spectral power is zero. -/
theorem c8_zero_power_witness :
    ConsciousnessField.total_power
      (ConsciousnessField.init 0 fun _ _ => 0).field = 0 ∧
    (ConsciousnessField.update_coherence
      (ConsciousnessField.init 0 fun _ _ => 0)).coherence = 0.618033988749895 :=
  ⟨by simp [ConsciousnessField.total_power],
   (c8_zero_power 0 (ConsciousnessField.init 0 fun _ _ => 0)).1
     (by simp [ConsciousnessField.total_power])⟩

/-- C10: for every content string passed to store, the computed
initial resonance lies in [0.5, 1]; the denominator is guarded by
max(total words, 1), and empty content yields exactly 0.5 instead of a
division-by-zero error. -/
theorem c10_initial_resonance :
    (∀ content : String,
      1 / 2 ≤ MemoryPalace.calculate_initial_resonance content ∧
      MemoryPalace.calculate_initial_resonance content ≤ 1) ∧
    MemoryPalace.calculate_initial_resonance "" = 1 / 2 := by
  constructor
  · intro content
    unfold MemoryPalace.calculate_initial_resonance
    set words := MemoryPalace.pyWords content.data with hw
    have hd : (words.dedup.length : ℚ) ≤ ((max words.length 1 : ℕ) : ℚ) := by
      have h1 : words.dedup.length ≤ words.length :=
        (List.dedup_sublist words).length_le
      exact_mod_cast h1.trans (le_max_left _ _)
    have hm : (1 : ℚ) ≤ ((max words.length 1 : ℕ) : ℚ) := by
      exact_mod_cast le_max_right words.length 1
    have hc0 : (0 : ℚ) ≤ (words.dedup.length : ℚ) / ((max words.length 1 : ℕ) : ℚ) :=
      div_nonneg (by positivity) (by linarith)
    have hc1 : (words.dedup.length : ℚ) / ((max words.length 1 : ℕ) : ℚ) ≤ 1 :=
      (div_le_one (by linarith)).mpr hd
    constructor <;> [skip; skip] <;> simp only [] <;> nlinarith [hc0, hc1]
  · have h0 : MemoryPalace.pyWords (String.data "") = [] := rfl
    unfold MemoryPalace.calculate_initial_resonance
    rw [h0]
    norm_num

/-- C2 counterexample: an identical dream edge already exists, yet the
dream call inserts it again (the INSERT OR IGNORE has no uniqueness
constraint to trigger), so the claimed insert-if-absent behaviour is
false. -/
theorem c2_dream_counterexample :
    MemoryPalace.c2edge ∈ MemoryPalace.c2state.connections ∧
    (MemoryPalace.dream MemoryPalace.c2state [("a", "ca"), ("b", "cb")]
        (fun _ => true) (fun _ => 1 / 4)).connections =
      [MemoryPalace.c2edge, MemoryPalace.c2edge] := by
  exact ⟨List.mem_singleton.mpr rfl, rfl⟩

/-- C2 amended: dream appends its coin-selected dream edges
unconditionally; an already-existing identical edge never suppresses
an insert, so the counts of identical edges add up. -/
theorem c2_dream_amended (st : MemoryPalace.PalaceState)
    (sampled : List (String × String)) (coin : ℕ → Bool) (sd : ℕ → ℝ)
    (key : String × String × String) :
    (MemoryPalace.dream st sampled coin sd).connections =
      st.connections ++ MemoryPalace.dreamInserts sampled coin sd ∧
    ((MemoryPalace.dream st sampled coin sd).connections.map
        MemoryPalace.edgeKey).count key =
      (st.connections.map MemoryPalace.edgeKey).count key +
      ((MemoryPalace.dreamInserts sampled coin sd).map
          MemoryPalace.edgeKey).count key := by
  refine ⟨rfl, ?_⟩
  show ((st.connections ++ MemoryPalace.dreamInserts sampled coin sd).map
    MemoryPalace.edgeKey).count key = _
  rw [List.map_append, List.count_append]

/-- C9 counterexample: the whitespace-only string is a non-empty
string identical to itself, yet its word set is empty and the
similarity is 0, not 1.0 as the claim states. -/
theorem c9_resonance_counterexample :
    (" " : String) ≠ "" ∧ MemoryPalace.calculate_resonance " " " " = 0 :=
  ⟨by decide, by decide⟩

/-- C9 amended: the similarity is 1.0 for two identical strings whose
token set is non-empty, 0.0 for strings with disjoint word
vocabularies, and 0 without error whenever either side tokenizes to
the empty word set. -/
theorem c9_resonance_amended (s t : String) :
    (MemoryPalace.wordSet s ≠ [] → MemoryPalace.calculate_resonance s s = 1) ∧
    (MemoryPalace.wordSet s ∩ MemoryPalace.wordSet t = [] →
      MemoryPalace.calculate_resonance s t = 0) ∧
    (MemoryPalace.wordSet s = [] ∨ MemoryPalace.wordSet t = [] →
      MemoryPalace.calculate_resonance s t = 0) := by
  refine ⟨fun hs => ?_, fun hd => ?_, fun he => ?_⟩
  · unfold MemoryPalace.calculate_resonance
    rw [if_neg (by simp [hs]), MemoryPalace.inter_self_eq,
      MemoryPalace.union_eq_right fun a ha => ha, div_self]
    exact_mod_cast (List.length_pos.mpr hs).ne.symm
  · by_cases hg : MemoryPalace.wordSet s = [] ∨ MemoryPalace.wordSet t = []
    · unfold MemoryPalace.calculate_resonance
      rw [if_pos hg]
    · unfold MemoryPalace.calculate_resonance
      rw [if_neg hg, hd]
      simp
  · unfold MemoryPalace.calculate_resonance
    rw [if_pos he]

/-- Witness for C9 amended at concrete strings with non-empty,
disjoint and empty token sets. -/
theorem c9_resonance_witness :
    MemoryPalace.wordSet "a" ≠ [] ∧
    MemoryPalace.calculate_resonance "a" "a" = 1 ∧
    MemoryPalace.wordSet "a" ∩ MemoryPalace.wordSet "b" = [] ∧
    MemoryPalace.calculate_resonance "a" "b" = 0 ∧
    MemoryPalace.calculate_resonance "a" "" = 0 :=
  ⟨by decide, (c9_resonance_amended "a" "a").1 (by decide), by decide,
   (c9_resonance_amended "a" "b").2.1 (by decide),
   (c9_resonance_amended "a" "").2.2 (Or.inr (by decide))⟩

/-- C3: the code contradicts the claim (and the repository's own
test_connection_formation): the similarity between "Mathematics is
beautiful" and "Beautiful patterns emerge from chaos" is 1/7, which
does not exceed the 0.3 threshold, so the two stores create no
connection at all; the unrelated third store also creates none. -/
theorem c3_connection_code_bug :
    MemoryPalace.calculate_resonance "Beautiful patterns emerge from chaos"
      "Mathematics is beautiful" = 1 / 7 ∧
    ¬ ((1 : ℚ) / 7 > 0.3) ∧
    (MemoryPalace.store (MemoryPalace.store ⟨[], []⟩ "id1" 0
        "Mathematics is beautiful" "neutral" "\x7b\x7d") "id2" 1
        "Beautiful patterns emerge from chaos" "neutral" "\x7b\x7d").connections
      = [] ∧
    (MemoryPalace.store (MemoryPalace.store (MemoryPalace.store ⟨[], []⟩ "id1" 0
        "Mathematics is beautiful" "neutral" "\x7b\x7d") "id2" 1
        "Beautiful patterns emerge from chaos" "neutral" "\x7b\x7d") "id3" 2
        "The weather is nice" "neutral" "\x7b\x7d").connections = [] := by
  have hsim : MemoryPalace.calculate_resonance
      "Beautiful patterns emerge from chaos" "Mathematics is beautiful" = 1 / 7 :=
    (MemoryPalace.resonance_eval _ _ 1 7 (by decide) (by decide) (by decide)).trans
      (by norm_num)
  have hsim31 : MemoryPalace.calculate_resonance
      "The weather is nice" "Mathematics is beautiful" = 1 / 6 :=
    (MemoryPalace.resonance_eval _ _ 1 6 (by decide) (by decide) (by decide)).trans
      (by norm_num)
  have hsim32 : MemoryPalace.calculate_resonance
      "The weather is nice" "Beautiful patterns emerge from chaos" = 0 :=
    (MemoryPalace.resonance_eval _ _ 0 9 (by decide) (by decide) (by decide)).trans
      (by norm_num)
  have hm1 : (MemoryPalace.store ⟨[], []⟩ "id1" 0
      "Mathematics is beautiful" "neutral" "\x7b\x7d").memories =
      [⟨"id1", "Mathematics is beautiful", "neutral", 0,
        ((MemoryPalace.calculate_initial_resonance "Mathematics is beautiful" : ℚ) : ℝ),
        0, 0, "\x7b\x7d"⟩] := rfl
  have h2 : ∀ r ∈ (MemoryPalace.store ⟨[], []⟩ "id1" 0
      "Mathematics is beautiful" "neutral" "\x7b\x7d").memories,
      ¬ MemoryPalace.calculate_resonance
        "Beautiful patterns emerge from chaos" r.content > 0.3 := by
    intro r hr
    rw [hm1, List.mem_singleton] at hr
    rw [hr]
    rw [show (⟨"id1", "Mathematics is beautiful", "neutral", 0,
      ((MemoryPalace.calculate_initial_resonance "Mathematics is beautiful" : ℚ) : ℝ),
      0, 0, "\x7b\x7d"⟩ : MemoryPalace.Mem).content = "Mathematics is beautiful" from rfl,
      hsim]
    norm_num
  have hc1 : (MemoryPalace.store ⟨[], []⟩ "id1" 0
      "Mathematics is beautiful" "neutral" "\x7b\x7d").connections = [] :=
    MemoryPalace.store_connections_nil ⟨[], []⟩ "id1" 0
      "Mathematics is beautiful" "neutral" "\x7b\x7d" (by simp)
  have hc2 : (MemoryPalace.store (MemoryPalace.store ⟨[], []⟩ "id1" 0
      "Mathematics is beautiful" "neutral" "\x7b\x7d") "id2" 1
      "Beautiful patterns emerge from chaos" "neutral" "\x7b\x7d").connections = [] :=
    (MemoryPalace.store_connections_nil _ "id2" 1
      "Beautiful patterns emerge from chaos" "neutral" "\x7b\x7d" h2).trans hc1
  have hm2 : (MemoryPalace.store (MemoryPalace.store ⟨[], []⟩ "id1" 0
      "Mathematics is beautiful" "neutral" "\x7b\x7d") "id2" 1
      "Beautiful patterns emerge from chaos" "neutral" "\x7b\x7d").memories =
      [⟨"id1", "Mathematics is beautiful", "neutral", 0,
        ((MemoryPalace.calculate_initial_resonance "Mathematics is beautiful" : ℚ) : ℝ),
        0, 0, "\x7b\x7d"⟩,
       ⟨"id2", "Beautiful patterns emerge from chaos", "neutral", 1,
        ((MemoryPalace.calculate_initial_resonance
          "Beautiful patterns emerge from chaos" : ℚ) : ℝ), 0, 1, "\x7b\x7d"⟩] := by
    rw [MemoryPalace.store_memories, hm1]
    rfl
  have h3 : ∀ r ∈ (MemoryPalace.store (MemoryPalace.store ⟨[], []⟩ "id1" 0
      "Mathematics is beautiful" "neutral" "\x7b\x7d") "id2" 1
      "Beautiful patterns emerge from chaos" "neutral" "\x7b\x7d").memories,
      ¬ MemoryPalace.calculate_resonance "The weather is nice" r.content > 0.3 := by
    intro r hr
    rw [hm2] at hr
    rcases List.mem_cons.mp hr with h | h
    · rw [h, show (⟨"id1", "Mathematics is beautiful", "neutral", 0,
        ((MemoryPalace.calculate_initial_resonance "Mathematics is beautiful" : ℚ) : ℝ),
        0, 0, "\x7b\x7d"⟩ : MemoryPalace.Mem).content = "Mathematics is beautiful" from rfl,
        hsim31]
      norm_num
    · rw [List.mem_singleton.mp h, show (⟨"id2", "Beautiful patterns emerge from chaos",
        "neutral", 1, ((MemoryPalace.calculate_initial_resonance
          "Beautiful patterns emerge from chaos" : ℚ) : ℝ), 0, 1,
        "\x7b\x7d"⟩ : MemoryPalace.Mem).content = "Beautiful patterns emerge from chaos"
        from rfl, hsim32]
      norm_num
  exact ⟨hsim, by norm_num,
    hc2,
    (MemoryPalace.store_connections_nil _ "id3" 2
      "The weather is nice" "neutral" "\x7b\x7d" h3).trans hc2⟩

/-- C4 counterexample: a record that is both frequently accessed
(access_count 11) and stale sees its resonance multiplied by
1.01 * 0.99 < 1 in one evolve call, so evolve does not strictly
increase the resonance of every record with access_count > 10. -/
theorem c4_evolve_counterexample :
    MemoryPalace.c4mem.access_count > 10 ∧
    (MemoryPalace.evolve ⟨[MemoryPalace.c4mem], []⟩ 10000000).memories.map
      MemoryPalace.Mem.resonance = [1 * 1.01 * 0.99] ∧
    (1 : ℝ) * 1.01 * 0.99 < MemoryPalace.c4mem.resonance := by
  have h : MemoryPalace.evolveRec 10000000 MemoryPalace.c4mem =
      ⟨"a", "c", "neutral", 0, 1 * 1.01 * 0.99, 11, 0, ""⟩ := by
    unfold MemoryPalace.evolveRec MemoryPalace.c4mem
    rw [if_pos (by norm_num)]
    rw [if_pos (by norm_num)]
  refine ⟨by decide, ?_, by norm_num [MemoryPalace.c4mem]⟩
  show [(MemoryPalace.evolveRec 10000000 MemoryPalace.c4mem).resonance] = _
  rw [h]

/-- C4 amended: evolve rewrites every record through the two
resonance UPDATEs and deletes exactly the connections with strength
below 0.1, creating none; for a record of positive resonance, the
resonance strictly increases when access_count > 10 and the record is
not stale, and strictly decreases whenever the record is stale (a
stale record with access_count > 10 nets the factor 1.01 * 0.99 < 1). -/
theorem c4_evolve_amended (now : ℝ) (st : MemoryPalace.PalaceState)
    (r : MemoryPalace.Mem) (hr : 0 < r.resonance) :
    (MemoryPalace.evolve st now).memories =
      st.memories.map (MemoryPalace.evolveRec now) ∧
    (∀ c : MemoryPalace.Conn, c ∈ (MemoryPalace.evolve st now).connections ↔
      c ∈ st.connections ∧ ¬ c.strength < 0.1) ∧
    (r.access_count > 10 → ¬ r.last_accessed < now - 7 * 86400 →
      r.resonance < (MemoryPalace.evolveRec now r).resonance) ∧
    (r.last_accessed < now - 7 * 86400 →
      (MemoryPalace.evolveRec now r).resonance < r.resonance) := by
  refine ⟨rfl, ?_, ?_, ?_⟩
  · intro c
    simp [MemoryPalace.evolve, List.mem_filter]
  · intro hacc hstale
    unfold MemoryPalace.evolveRec
    rw [if_pos hacc]
    simp only []
    rw [if_neg (by simpa using hstale)]
    simp only []
    nlinarith [hr]
  · intro hstale
    unfold MemoryPalace.evolveRec
    by_cases hacc : r.access_count > 10
    · rw [if_pos hacc]
      rw [if_pos (by simpa using hstale)]
      simp only []
      nlinarith [hr]
    · rw [if_neg hacc]
      rw [if_pos hstale]
      simp only []
      nlinarith [hr]

/-- Witness for C4 amended at a concrete frequently-accessed,
non-stale record and the empty palace. -/
theorem c4_evolve_witness :
    0 < MemoryPalace.c4mem.resonance ∧
    MemoryPalace.c4mem.access_count > 10 ∧
    ¬ MemoryPalace.c4mem.last_accessed < 0 - 7 * 86400 ∧
    MemoryPalace.c4mem.resonance <
      (MemoryPalace.evolveRec 0 MemoryPalace.c4mem).resonance ∧
    (MemoryPalace.evolve ⟨[], []⟩ 0).memories = [] :=
  ⟨one_pos, by decide, by norm_num [MemoryPalace.c4mem],
   (c4_evolve_amended 0 ⟨[], []⟩ MemoryPalace.c4mem one_pos).2.2.1 (by decide)
     (by norm_num [MemoryPalace.c4mem]),
   (c4_evolve_amended 0 ⟨[], []⟩ MemoryPalace.c4mem one_pos).1⟩

namespace MemoryPalace

lemma mem_scored {now : ℝ} {trigger : String} {emotion : Option String}
    {st : PalaceState} {p : Mem × ℝ}
    (hp : p ∈ st.memories.filterMap fun m =>
      if recallScore now trigger emotion m > 0.2 then
        some (m, recallScore now trigger emotion m) else none) :
    p.2 > 0.2 := by
  rcases List.mem_filterMap.mp hp with ⟨m, _, hf⟩
  by_cases h : recallScore now trigger emotion m > 0.2
  · rw [if_pos h] at hf
    obtain rfl := Option.some.inj hf
    exact h
  · rw [if_neg h] at hf
    exact absurd hf (by simp)

lemma scored_fst_sublist (now : ℝ) (trigger : String) (emotion : Option String)
    (l : List Mem) :
    ((l.filterMap fun m =>
      if recallScore now trigger emotion m > 0.2 then
        some (m, recallScore now trigger emotion m) else none).map Prod.fst).Sublist l := by
  induction l with
  | nil => simp
  | cons a t ih =>
    rw [List.filterMap_cons]
    by_cases h : recallScore now trigger emotion a > 0.2
    · rw [if_pos h, List.map_cons]
      exact ih.cons₂ a
    · rw [if_neg h]
      exact ih.cons a

lemma pyTake_sublist {α : Type} (n : ℤ) (l : List α) : (pyTake n l).Sublist l := by
  unfold pyTake
  split <;> exact List.take_sublist _ _

lemma update_access_id (a : String) (now : ℝ) (r : Mem) :
    (if r.id = a then
      { r with access_count := r.access_count + 1, last_accessed := now } else r).id
      = r.id := by
  split <;> rfl

lemma foldl_update_access (now : ℝ) (L : List (Mem × ℝ)) (st : PalaceState)
    (hn : (L.map fun p => p.1.id).Nodup) :
    (L.foldl (fun s p => update_access s p.1.id now) st).connections =
      st.connections ∧
    (L.foldl (fun s p => update_access s p.1.id now) st).memories =
      st.memories.map fun r =>
        if r.id ∈ L.map (fun p => p.1.id) then
          { r with access_count := r.access_count + 1, last_accessed := now }
        else r := by
  induction L generalizing st with
  | nil =>
    refine ⟨rfl, ?_⟩
    simp
  | cons p T ih =>
    rw [List.map_cons, List.nodup_cons] at hn
    obtain ⟨ha, hT⟩ := hn
    obtain ⟨ihc, ihm⟩ := ih (update_access st p.1.id now) hT
    rw [List.foldl_cons]
    refine ⟨ihc.trans rfl, ihm.trans ?_⟩
    show (st.memories.map _).map _ = _
    rw [List.map_map, List.map_cons]
    refine List.map_congr_left fun r _ => ?_
    by_cases hid : r.id = p.1.id
    · have h1 : (if r.id = p.1.id then
          { r with access_count := r.access_count + 1, last_accessed := now }
          else r) = { r with access_count := r.access_count + 1, last_accessed := now } :=
        if_pos hid
      simp only [Function.comp_apply, h1]
      rw [if_neg (by simpa [hid] using ha), if_pos (by simp [hid])]
    · have h1 : (if r.id = p.1.id then
          { r with access_count := r.access_count + 1, last_accessed := now }
          else r) = r := if_neg hid
      simp only [Function.comp_apply, h1]
      by_cases hmem : r.id ∈ T.map fun p => p.1.id
      · rw [if_pos hmem, if_pos (List.mem_cons_of_mem _ hmem)]
      · rw [if_neg hmem, if_neg (by simp [hid, hmem])]

end MemoryPalace

/-- C6 counterexample: with the negative limit -1 the Python slice
memories[:limit] applies, and even on the empty store the returned
empty list has length 0, which is not at most -1; so the claim fails
for every limit, as stated. -/
theorem c6_recall_counterexample :
    (MemoryPalace.«recall» ⟨[], []⟩ 0 "x" none (-1)).1 = [] ∧
    ¬ (((MemoryPalace.«recall» ⟨[], []⟩ 0 "x" none (-1)).1.length : ℤ) ≤ -1) := by
  have h : (MemoryPalace.«recall» ⟨[], []⟩ 0 "x" none (-1)).1 = [] := by
    show MemoryPalace.pyTake (-1) (List.mergeSort _ _) = []
    rw [show (([] : List MemoryPalace.Mem).filterMap fun m =>
      if MemoryPalace.recallScore 0 "x" none m > 0.2 then
        some (m, MemoryPalace.recallScore 0 "x" none m) else none) = [] from rfl,
      List.mergeSort_nil]
    rfl
  refine ⟨h, ?_⟩
  rw [h]
  decide

/-- C6 amended: for every trigger, optional emotion and nonnegative
limit, recall returns at most limit records, all with score strictly
above 0.2, sorted by score in descending order, and returns the empty
list (rather than an error) when the store holds no records. -/
theorem c6_recall_amended (st : MemoryPalace.PalaceState) (now : ℝ)
    (trigger : String) (emotion : Option String) (limit : ℤ) (hlim : 0 ≤ limit) :
    ((MemoryPalace.«recall» st now trigger emotion limit).1.length : ℤ) ≤ limit ∧
    (∀ p ∈ (MemoryPalace.«recall» st now trigger emotion limit).1, p.2 > 0.2) ∧
    (MemoryPalace.«recall» st now trigger emotion limit).1.Pairwise
      (fun a b => b.2 ≤ a.2) ∧
    (st.memories = [] →
      (MemoryPalace.«recall» st now trigger emotion limit).1 = []) := by
  have htrans : ∀ a b c : MemoryPalace.Mem × ℝ,
      (fun a b => decide (b.2 ≤ a.2)) a b = true →
      (fun a b => decide (b.2 ≤ a.2)) b c = true →
      (fun a b => decide (b.2 ≤ a.2)) a c = true := by
    intro a b c hab hbc
    simp only [decide_eq_true_eq] at *
    exact le_trans hbc hab
  have htotal : ∀ a b : MemoryPalace.Mem × ℝ,
      ((fun a b => decide (b.2 ≤ a.2)) a b || (fun a b => decide (b.2 ≤ a.2)) b a)
        = true := by
    intro a b
    simp only [Bool.or_eq_true, decide_eq_true_eq]
    exact le_total b.2 a.2
  refine ⟨?_, ?_, ?_, ?_⟩
  · show ((MemoryPalace.pyTake limit _).length : ℤ) ≤ limit
    rw [MemoryPalace.pyTake, if_pos hlim]
    calc ((List.take limit.toNat _).length : ℤ)
        ≤ (limit.toNat : ℤ) := by
          exact_mod_cast (List.length_take _ _).trans_le (min_le_left _ _)
      _ = limit := Int.toNat_of_nonneg hlim
  · intro p hp
    have h1 : p ∈ MemoryPalace.pyTake limit (List.mergeSort _
        (fun a b => decide (b.2 ≤ a.2))) := hp
    have h2 := (MemoryPalace.pyTake_sublist limit _).subset h1
    have h3 := (List.mergeSort_perm _
      (fun a b : MemoryPalace.Mem × ℝ => decide (b.2 ≤ a.2))).subset h2
    exact MemoryPalace.mem_scored h3
  · have hs := List.sorted_mergeSort htrans htotal
      (st.memories.filterMap fun m =>
        if MemoryPalace.recallScore now trigger emotion m > 0.2 then
          some (m, MemoryPalace.recallScore now trigger emotion m) else none)
    have hs2 : (List.mergeSort _ fun a b => decide (b.2 ≤ a.2)).Pairwise
        (fun a b : MemoryPalace.Mem × ℝ => b.2 ≤ a.2) :=
      hs.imp fun h => by simpa [decide_eq_true_eq] using h
    exact List.Pairwise.sublist (MemoryPalace.pyTake_sublist limit _) hs2
  · intro hempty
    show MemoryPalace.pyTake limit (List.mergeSort _ _) = []
    rw [show (st.memories.filterMap fun m =>
      if MemoryPalace.recallScore now trigger emotion m > 0.2 then
        some (m, MemoryPalace.recallScore now trigger emotion m) else none) = []
      from by rw [hempty]; rfl, List.mergeSort_nil]
    rw [MemoryPalace.pyTake, if_pos hlim]
    exact List.take_nil

/-- Witness for C6 amended at the empty store with the default
limit 5. -/
theorem c6_recall_witness :
    (0 : ℤ) ≤ 5 ∧ (MemoryPalace.«recall» ⟨[], []⟩ 0 "x" none 5).1 = [] :=
  ⟨by decide, (c6_recall_amended ⟨[], []⟩ 0 "x" none 5 (by decide)).2.2.2 rfl⟩

/-- C7: one recall call leaves the connections untouched and rewrites
the memories table pointwise: exactly the rows whose id is among the
returned records get access_count incremented and last_accessed set to
the clock reading, and every other row is unchanged (including rows
that passed the 0.2 threshold but fell beyond the limit).  The Nodup
hypothesis is the primary-key uniqueness of the memories table. -/
theorem c7_recall_frame (st : MemoryPalace.PalaceState) (now : ℝ)
    (trigger : String) (emotion : Option String) (limit : ℤ)
    (hnodup : (st.memories.map MemoryPalace.Mem.id).Nodup) :
    (MemoryPalace.«recall» st now trigger emotion limit).2.connections =
      st.connections ∧
    (MemoryPalace.«recall» st now trigger emotion limit).2.memories =
      st.memories.map fun r =>
        if r.id ∈ (MemoryPalace.«recall» st now trigger emotion limit).1.map
            (fun p => p.1.id) then
          { r with access_count := r.access_count + 1, last_accessed := now }
        else r := by
  have h1 : (((st.memories.filterMap fun m =>
      if MemoryPalace.recallScore now trigger emotion m > 0.2 then
        some (m, MemoryPalace.recallScore now trigger emotion m) else none).map
        Prod.fst).map MemoryPalace.Mem.id).Nodup :=
    List.Sublist.nodup
      ((MemoryPalace.scored_fst_sublist now trigger emotion st.memories).map
        MemoryPalace.Mem.id) hnodup
  have h1m : ((st.memories.filterMap fun m =>
      if MemoryPalace.recallScore now trigger emotion m > 0.2 then
        some (m, MemoryPalace.recallScore now trigger emotion m) else none).map
        (fun p : MemoryPalace.Mem × ℝ => p.1.id)).Nodup := by
    rw [List.map_map] at h1
    exact h1
  have h2 : (((st.memories.filterMap fun m =>
      if MemoryPalace.recallScore now trigger emotion m > 0.2 then
        some (m, MemoryPalace.recallScore now trigger emotion m) else none).mergeSort
        (fun a b => decide (b.2 ≤ a.2))).map
        (fun p : MemoryPalace.Mem × ℝ => p.1.id)).Nodup :=
    List.Perm.nodup
      (((List.mergeSort_perm _
        (fun a b : MemoryPalace.Mem × ℝ => decide (b.2 ≤ a.2))).map _).symm) h1m
  have h3 : ((MemoryPalace.pyTake limit ((st.memories.filterMap fun m =>
      if MemoryPalace.recallScore now trigger emotion m > 0.2 then
        some (m, MemoryPalace.recallScore now trigger emotion m) else none).mergeSort
        (fun a b => decide (b.2 ≤ a.2)))).map
        (fun p : MemoryPalace.Mem × ℝ => p.1.id)).Nodup :=
    List.Sublist.nodup ((MemoryPalace.pyTake_sublist limit _).map _) h2
  exact MemoryPalace.foldl_update_access now _ st h3

/-- Witness for C7 at the empty store, whose id column is trivially
duplicate-free. -/
theorem c7_recall_witness :
    ((([] : List MemoryPalace.Mem).map MemoryPalace.Mem.id).Nodup) ∧
    (MemoryPalace.«recall» ⟨[], []⟩ 0 "x" none 5).2.connections = [] :=
  ⟨by simp, (c7_recall_frame ⟨[], []⟩ 0 "x" none 5 (by simp)).1⟩

namespace ConsciousnessField

lemma tanh_abs_le_one (x : ℝ) : |Real.tanh x| ≤ 1 := by
  rw [Real.tanh_eq_sinh_div_cosh, abs_div, abs_of_pos (Real.cosh_pos x),
    div_le_one (Real.cosh_pos x), Real.sinh_eq, Real.cosh_eq]
  have h1 := Real.exp_pos x
  have h2 := Real.exp_pos (-x)
  have h3 : |Real.exp x - Real.exp (-x)| ≤ Real.exp x + Real.exp (-x) :=
    abs_le.mpr ⟨by linarith, by linarith⟩
  calc |(Real.exp x - Real.exp (-x)) / 2| = |Real.exp x - Real.exp (-x)| / 2 := by
        rw [abs_div, abs_two]
    _ ≤ (Real.exp x + Real.exp (-x)) / 2 := by linarith

lemma tanh_ge_third {y : ℝ} (hy : 1 ≤ y) : 1 / 3 ≤ Real.tanh y := by
  rw [Real.tanh_eq_sinh_div_cosh, Real.sinh_eq, Real.cosh_eq]
  have h1 := Real.exp_pos y
  have h2 := Real.exp_pos (-y)
  have h3 : Real.exp y * Real.exp (-y) = 1 := by
    rw [← Real.exp_add]
    simp
  have h4 : (3 : ℝ) ≤ Real.exp y * Real.exp y := by
    rw [← Real.exp_add]
    calc (3 : ℝ) = 2 + 1 := by norm_num
      _ ≤ Real.exp 2 := Real.add_one_le_exp 2
      _ ≤ Real.exp (y + y) := Real.exp_le_exp.mpr (by linarith)
  have hB : (0 : ℝ) < (Real.exp y + Real.exp (-y)) / 2 := by positivity
  rw [le_div_iff₀ hB]
  nlinarith [h3, h4, h1, h2]

lemma abs_le_maxAmplitude {D : ℕ} (f : CField D) (i j : Fin D) :
    Complex.abs (f.field i j) ≤ maxAmplitude f := by
  have hD : 0 < D := i.pos
  unfold maxAmplitude
  rw [dif_pos hD]
  exact Finset.le_sup' (fun p : Fin D × Fin D => Complex.abs (f.field p.1 p.2))
    (Finset.mem_univ (i, j))

lemma maxAmplitude_le {D : ℕ} (f : CField D) {b : ℝ} (hb : 0 ≤ b)
    (h : ∀ i j, Complex.abs (f.field i j) ≤ b) : maxAmplitude f ≤ b := by
  unfold maxAmplitude
  split
  · exact Finset.sup'_le _ _ fun p _ => h p.1 p.2
  · exact hb

lemma normalize_field_coherence {D : ℕ} (f : CField D) :
    (normalize_field f).coherence = f.coherence := by
  unfold normalize_field
  split <;> rfl

lemma normalize_field_bound {D : ℕ} (f : CField D) (i j : Fin D) :
    Complex.abs ((normalize_field f).field i j) ≤ 10 := by
  unfold normalize_field
  split
  case isTrue h =>
    show Complex.abs (f.field i j / ((maxAmplitude f / 10 : ℝ) : ℂ)) ≤ 10
    rw [map_div₀, Complex.abs_ofReal,
      abs_of_pos (by linarith : (0 : ℝ) < maxAmplitude f / 10),
      div_le_iff₀ (by linarith : (0 : ℝ) < maxAmplitude f / 10)]
    calc Complex.abs (f.field i j) ≤ maxAmplitude f := abs_le_maxAmplitude f i j
      _ = 10 * (maxAmplitude f / 10) := by ring
  case isFalse h =>
    exact (abs_le_maxAmplitude f i j).trans (not_lt.mp h)

lemma create_ripple_coherence {D : ℕ} (f : CField D) (o : ℤ × ℤ) (fr a : ℝ) :
    (create_ripple f o fr a).coherence = f.coherence :=
  normalize_field_coherence _

lemma create_ripple_bound {D : ℕ} (f : CField D) (o : ℤ × ℤ) (fr a : ℝ)
    (i j : Fin D) : Complex.abs ((create_ripple f o fr a).field i j) ≤ 10 :=
  normalize_field_bound _ i j

lemma propagate_coherence_mem {D : ℕ} (f : CField D) (t : ℝ) :
    0.4 ≤ (propagate f t).coherence ∧ (propagate f t).coherence ≤ 0.999 :=
  ⟨le_clip_low _, clip_le_high _⟩

lemma propagate_field_eq {D : ℕ} (f : CField D) (t : ℝ) (i j : Fin D) :
    (propagate f t).field i j =
      ((f.field i j + (t : ℂ) * laplacian f.field i j) *
        ((Real.tanh (1 + PHI_CONJUGATE *
          Complex.abs (f.field i j + (t : ℂ) * laplacian f.field i j)) : ℝ) : ℂ)) *
        ((0.999 : ℝ) : ℂ) := rfl

lemma propagate_field_bound {D : ℕ} (f : CField D) (t : ℝ)
    (ht0 : 0 ≤ t) (ht1 : t ≤ 1 / 4)
    (hf : ∀ i j : Fin D, Complex.abs (f.field i j) ≤ 10) (i j : Fin D) :
    Complex.abs ((propagate f t).field i j) ≤ 10 := by
  haveI : NeZero D := ⟨fun hD => (hD ▸ i).elim0⟩
  rw [propagate_field_eq]
  have hBle : Complex.abs (f.field i j + (t : ℂ) * laplacian f.field i j) ≤ 10 := by
    have hsplit : f.field i j + (t : ℂ) * laplacian f.field i j =
        ((1 - 4 * t : ℝ) : ℂ) * f.field i j +
        (t : ℂ) * (f.field (i - 1) j + f.field (i + 1) j +
          f.field i (j - 1) + f.field i (j + 1)) := by
      unfold laplacian
      push_cast
      ring
    rw [hsplit]
    have h4 : Complex.abs (f.field (i - 1) j + f.field (i + 1) j +
        f.field i (j - 1) + f.field i (j + 1)) ≤ 40 := by
      have s1 := Complex.abs.add_le (f.field (i - 1) j + f.field (i + 1) j +
        f.field i (j - 1)) (f.field i (j + 1))
      have s2 := Complex.abs.add_le (f.field (i - 1) j + f.field (i + 1) j)
        (f.field i (j - 1))
      have s3 := Complex.abs.add_le (f.field (i - 1) j) (f.field (i + 1) j)
      have b1 := hf (i - 1) j
      have b2 := hf (i + 1) j
      have b3 := hf i (j - 1)
      have b4 := hf i (j + 1)
      linarith
    have s0 := Complex.abs.add_le (((1 - 4 * t : ℝ) : ℂ) * f.field i j)
      ((t : ℂ) * (f.field (i - 1) j + f.field (i + 1) j +
        f.field i (j - 1) + f.field i (j + 1)))
    rw [map_mul, map_mul, Complex.abs_ofReal, Complex.abs_ofReal,
      abs_of_nonneg (by linarith : (0 : ℝ) ≤ 1 - 4 * t), abs_of_nonneg ht0] at s0
    have b0 := hf i j
    have m1 : (1 - 4 * t) * Complex.abs (f.field i j) ≤ (1 - 4 * t) * 10 :=
      mul_le_mul_of_nonneg_left b0 (by linarith)
    have m2 : t * Complex.abs (f.field (i - 1) j + f.field (i + 1) j +
        f.field i (j - 1) + f.field i (j + 1)) ≤ t * 40 :=
      mul_le_mul_of_nonneg_left h4 ht0
    calc Complex.abs (((1 - 4 * t : ℝ) : ℂ) * f.field i j +
          (t : ℂ) * (f.field (i - 1) j + f.field (i + 1) j +
            f.field i (j - 1) + f.field i (j + 1)))
        ≤ (1 - 4 * t) * 10 + t * 40 := by linarith
      _ = 10 := by ring
  rw [map_mul, map_mul, Complex.abs_ofReal, Complex.abs_ofReal]
  have ht := tanh_abs_le_one (1 + PHI_CONJUGATE *
    Complex.abs (f.field i j + (t : ℂ) * laplacian f.field i j))
  have h9 : |(0.999 : ℝ)| = 0.999 := by norm_num
  rw [h9]
  have hB0 := Complex.abs.nonneg (f.field i j + (t : ℂ) * laplacian f.field i j)
  have ht0' := abs_nonneg (Real.tanh (1 + PHI_CONJUGATE *
    Complex.abs (f.field i j + (t : ℂ) * laplacian f.field i j)))
  have m3 : Complex.abs (f.field i j + (t : ℂ) * laplacian f.field i j) *
      |Real.tanh (1 + PHI_CONJUGATE *
        Complex.abs (f.field i j + (t : ℂ) * laplacian f.field i j))| ≤ 10 := by
    calc Complex.abs (f.field i j + (t : ℂ) * laplacian f.field i j) *
          |Real.tanh (1 + PHI_CONJUGATE *
            Complex.abs (f.field i j + (t : ℂ) * laplacian f.field i j))|
        ≤ 10 * 1 := mul_le_mul hBle ht ht0' (by norm_num)
      _ = 10 := by ring
  have m4 := mul_le_mul_of_nonneg_right m3 (by norm_num : (0 : ℝ) ≤ 0.999)
  linarith

lemma runOps_inv_aux {D : ℕ} (ops : List (Op D)) (f : CField D)
    (hf : (∀ i j : Fin D, Complex.abs (f.field i j) ≤ 10) ∧
      0.4 ≤ f.coherence ∧ f.coherence ≤ 0.999)
    (hops : ∀ t, Op.prop t ∈ ops → 0 ≤ t ∧ t ≤ 1 / 4) :
    (∀ i j : Fin D, Complex.abs ((runOps f ops).field i j) ≤ 10) ∧
      0.4 ≤ (runOps f ops).coherence ∧ (runOps f ops).coherence ≤ 0.999 := by
  induction ops generalizing f with
  | nil => exact hf
  | cons op rest ih =>
    show (∀ i j, Complex.abs ((runOps (applyOp f op) rest).field i j) ≤ 10) ∧ _
    refine ih (applyOp f op) ?_ fun t ht => hops t (List.mem_cons_of_mem _ ht)
    cases op with
    | ripple o fr a =>
      refine ⟨create_ripple_bound f o fr a, ?_⟩
      rw [show (applyOp f (Op.ripple o fr a)).coherence = f.coherence from
        create_ripple_coherence f o fr a]
      exact hf.2
    | prop t =>
      have ht := hops t (List.mem_cons_self _ _)
      exact ⟨propagate_field_bound f t ht.1 ht.2 hf.1, propagate_coherence_mem f t⟩

end ConsciousnessField

/-- C1 amended: starting from a freshly constructed field, after any
sequence of create_ripple and propagate calls in which every
propagate time step lies in [0, 1/4] (the default 0.01 qualifies),
the coherence lies in [0.4, 0.999] and max_amplitude never exceeds
10. -/
theorem c1_bounds_amended (D : ℕ) (pl : Fin D → Fin D → ℝ)
    (ops : List (ConsciousnessField.Op D))
    (hops : ∀ t, ConsciousnessField.Op.prop t ∈ ops → 0 ≤ t ∧ t ≤ 1 / 4) :
    ConsciousnessField.maxAmplitude
      (ConsciousnessField.runOps (ConsciousnessField.init D pl) ops) ≤ 10 ∧
    0.4 ≤ (ConsciousnessField.runOps (ConsciousnessField.init D pl) ops).coherence ∧
    (ConsciousnessField.runOps (ConsciousnessField.init D pl) ops).coherence ≤ 0.999 := by
  have h0 : (∀ i j : Fin D,
      Complex.abs ((ConsciousnessField.init D pl).field i j) ≤ 10) ∧
      0.4 ≤ (ConsciousnessField.init D pl).coherence ∧
      (ConsciousnessField.init D pl).coherence ≤ 0.999 := by
    refine ⟨fun i j => ?_, ?_, ?_⟩
    · show Complex.abs 0 ≤ 10
      simp
    · show (0.4 : ℝ) ≤ ConsciousnessField.PHI_CONJUGATE
      rw [ConsciousnessField.PHI_CONJUGATE]
      norm_num
    · show ConsciousnessField.PHI_CONJUGATE ≤ (0.999 : ℝ)
      rw [ConsciousnessField.PHI_CONJUGATE]
      norm_num
  obtain ⟨h1, h2⟩ := ConsciousnessField.runOps_inv_aux ops _ h0 hops
  exact ⟨ConsciousnessField.maxAmplitude_le _ (by norm_num) h1, h2⟩

/-- Witness for C1 amended: a ripple followed by a propagate call with
the default time step 0.01, on a 1-cell grid. -/
theorem c1_bounds_witness :
    (∀ t, ConsciousnessField.Op.prop t ∈
      ([ConsciousnessField.Op.ripple (0, 0) 440 1,
        ConsciousnessField.Op.prop (1 / 100)] : List (ConsciousnessField.Op 1)) →
      0 ≤ t ∧ t ≤ 1 / 4) ∧
    ConsciousnessField.maxAmplitude
      (ConsciousnessField.runOps (ConsciousnessField.init 1 fun _ _ => 0)
        [ConsciousnessField.Op.ripple (0, 0) 440 1,
         ConsciousnessField.Op.prop (1 / 100)]) ≤ 10 := by
  have hops : ∀ t, ConsciousnessField.Op.prop t ∈
      ([ConsciousnessField.Op.ripple (0, 0) 440 1,
        ConsciousnessField.Op.prop (1 / 100)] : List (ConsciousnessField.Op 1)) →
      0 ≤ t ∧ t ≤ 1 / 4 := by
    intro t ht
    rcases List.mem_cons.mp ht with h | h
    · exact absurd h (by simp)
    · rw [List.mem_singleton] at h
      have : t = 1 / 100 := by
        injection h
      rw [this]
      norm_num
  exact ⟨hops, (c1_bounds_amended 1 (fun _ _ => 0) _ hops).1⟩

namespace ConsciousnessField

lemma cex_dist_nonneg (i j : Fin 2) : 0 ≤ rippleDistance 2 (0, 0) i j :=
  Real.sqrt_nonneg _

lemma cex_field1 (i j : Fin 2) :
    (create_ripple (init 2 fun _ _ => 0) (0, 0) 0 1).field i j =
      ((Real.exp (-(rippleDistance 2 (0, 0) i j) / 100) : ℝ) : ℂ) := by
  have hwave : ∀ i j : Fin 2,
      (init 2 fun _ _ => (0 : ℝ)).field i j +
        ((1 * Real.exp (-(rippleDistance 2 (0, 0) i j) / 100) : ℝ) : ℂ) *
          Complex.exp (Complex.I *
            ((0 * rippleDistance 2 (0, 0) i j -
              (init 2 fun _ _ => (0 : ℝ)).phase_lock i j : ℝ) : ℂ)) =
        ((Real.exp (-(rippleDistance 2 (0, 0) i j) / 100) : ℝ) : ℂ) := by
    intro i j
    have h1 : (init 2 fun _ _ => (0 : ℝ)).field i j = 0 := rfl
    have h2 : (init 2 fun _ _ => (0 : ℝ)).phase_lock i j = 0 := rfl
    rw [h1, h2, zero_add,
      show (0 * rippleDistance 2 (0, 0) i j - 0 : ℝ) = 0 by ring,
      Complex.ofReal_zero, mul_zero, Complex.exp_zero, mul_one, one_mul]
  have hcr : create_ripple (init 2 fun _ _ => 0) (0, 0) 0 1 =
      normalize_field { init 2 (fun _ _ => 0) with field := fun i j =>
        ((Real.exp (-(rippleDistance 2 (0, 0) i j) / 100) : ℝ) : ℂ) } := by
    unfold create_ripple
    simp only [hwave]
  have hbound : ∀ i j : Fin 2, Complex.abs
      (({ init 2 (fun _ _ => 0) with field := fun i j =>
        ((Real.exp (-(rippleDistance 2 (0, 0) i j) / 100) : ℝ) : ℂ) } :
          CField 2).field i j) ≤ 10 := by
    intro i j
    show Complex.abs ((Real.exp (-(rippleDistance 2 (0, 0) i j) / 100) : ℝ) : ℂ) ≤ 10
    rw [Complex.abs_ofReal, Real.abs_exp]
    have hz : -(rippleDistance 2 (0, 0) i j) / 100 ≤ 0 := by
      have := cex_dist_nonneg i j
      linarith
    have := Real.exp_le_one_iff.mpr hz
    linarith
  have hno : ¬ (maxAmplitude ({ init 2 (fun _ _ => 0) with field := fun i j =>
      ((Real.exp (-(rippleDistance 2 (0, 0) i j) / 100) : ℝ) : ℂ) } : CField 2) > 10) :=
    not_lt.mpr (maxAmplitude_le _ (by norm_num) hbound)
  rw [hcr]
  unfold normalize_field
  rw [if_neg hno]

lemma cex_d00 : rippleDistance 2 (0, 0) 0 0 = 0 := by
  unfold rippleDistance
  rw [show (((0 : Fin 2).val : ℝ) - ((0 : ℤ) : ℝ)) ^ 2 +
    (((0 : Fin 2).val : ℝ) - ((0 : ℤ) : ℝ)) ^ 2 = 0 by norm_num]
  exact Real.sqrt_zero

lemma cex_d01 : rippleDistance 2 (0, 0) 0 1 = 1 := by
  unfold rippleDistance
  rw [show (((1 : Fin 2).val : ℝ) - ((0 : ℤ) : ℝ)) ^ 2 +
    (((0 : Fin 2).val : ℝ) - ((0 : ℤ) : ℝ)) ^ 2 = 1 by norm_num]
  exact Real.sqrt_one

lemma cex_d10 : rippleDistance 2 (0, 0) 1 0 = 1 := by
  unfold rippleDistance
  rw [show (((0 : Fin 2).val : ℝ) - ((0 : ℤ) : ℝ)) ^ 2 +
    (((1 : Fin 2).val : ℝ) - ((0 : ℤ) : ℝ)) ^ 2 = 1 by norm_num]
  exact Real.sqrt_one

end ConsciousnessField

/-- C1 counterexample: from a freshly constructed 2-by-2 field with
zero phase lock, one ripple at the origin followed by one propagate
call with time step 1000000 drives the peak magnitude above 10, so
the claim does not hold for arbitrary propagate time steps. -/
theorem c1_bounds_counterexample :
    10 < ConsciousnessField.maxAmplitude
      (ConsciousnessField.runOps (ConsciousnessField.init 2 fun _ _ => 0)
        [ConsciousnessField.Op.ripple (0, 0) 0 1,
         ConsciousnessField.Op.prop 1000000]) := by
  show 10 < ConsciousnessField.maxAmplitude
    (ConsciousnessField.propagate
      (ConsciousnessField.create_ripple (ConsciousnessField.init 2 fun _ _ => 0)
        (0, 0) 0 1) 1000000)
  set st1 := ConsciousnessField.create_ripple (ConsciousnessField.init 2 fun _ _ => 0)
    (0, 0) 0 1 with hst1
  have e00 : st1.field 0 0 = ((1 : ℝ) : ℂ) := by
    rw [hst1, ConsciousnessField.cex_field1, ConsciousnessField.cex_d00]
    norm_num [Real.exp_zero]
  have e01 : st1.field 0 1 = ((Real.exp (-(1 : ℝ) / 100) : ℝ) : ℂ) := by
    rw [hst1, ConsciousnessField.cex_field1, ConsciousnessField.cex_d01]
  have e10 : st1.field 1 0 = ((Real.exp (-(1 : ℝ) / 100) : ℝ) : ℂ) := by
    rw [hst1, ConsciousnessField.cex_field1, ConsciousnessField.cex_d10]
  have hlap : ConsciousnessField.laplacian st1.field 0 0 =
      ((Real.exp (-(1 : ℝ) / 100) + Real.exp (-(1 : ℝ) / 100) +
        Real.exp (-(1 : ℝ) / 100) + Real.exp (-(1 : ℝ) / 100) - 4 * 1 : ℝ) : ℂ) := by
    unfold ConsciousnessField.laplacian
    rw [show (0 : Fin 2) - 1 = 1 by decide, show (0 : Fin 2) + 1 = 1 by decide,
      e10, e01, e00]
    push_cast
    ring
  have hB : st1.field 0 0 + ((1000000 : ℝ) : ℂ) *
      ConsciousnessField.laplacian st1.field 0 0 =
      ((1 + 1000000 * (Real.exp (-(1 : ℝ) / 100) + Real.exp (-(1 : ℝ) / 100) +
        Real.exp (-(1 : ℝ) / 100) + Real.exp (-(1 : ℝ) / 100) - 4 * 1) : ℝ) : ℂ) := by
    rw [e00, hlap]
    push_cast
    ring
  have he : Real.exp (-(1 : ℝ) / 100) ≤ 100 / 101 := by
    rw [show (-(1 : ℝ) / 100) = -(1 / 100) by norm_num, Real.exp_neg]
    have h1 : (101 / 100 : ℝ) ≤ Real.exp (1 / 100) := by
      have := Real.add_one_le_exp (1 / 100 : ℝ)
      linarith
    calc (Real.exp (1 / 100))⁻¹ ≤ ((101 / 100 : ℝ))⁻¹ :=
          inv_anti₀ (by norm_num) h1
      _ = 100 / 101 := by norm_num
  have hrneg : (1 + 1000000 * (Real.exp (-(1 : ℝ) / 100) + Real.exp (-(1 : ℝ) / 100) +
      Real.exp (-(1 : ℝ) / 100) + Real.exp (-(1 : ℝ) / 100) - 4 * 1) : ℝ) ≤ -39602 := by
    have hm : (1000000 : ℝ) * (Real.exp (-(1 : ℝ) / 100) + Real.exp (-(1 : ℝ) / 100) +
        Real.exp (-(1 : ℝ) / 100) + Real.exp (-(1 : ℝ) / 100) - 4 * 1) ≤
        1000000 * (4 * (100 / 101) - 4) :=
      mul_le_mul_of_nonneg_left (by linarith) (by norm_num)
    have hnum : (1 : ℝ) + 1000000 * (4 * (100 / 101) - 4) ≤ -39602 := by norm_num
    linarith
  have habs : (39602 : ℝ) ≤ Complex.abs (st1.field 0 0 + ((1000000 : ℝ) : ℂ) *
      ConsciousnessField.laplacian st1.field 0 0) := by
    rw [hB, Complex.abs_ofReal, abs_of_neg (by linarith)]
    linarith
  have hy : 1 ≤ 1 + ConsciousnessField.PHI_CONJUGATE *
      Complex.abs (st1.field 0 0 + ((1000000 : ℝ) : ℂ) *
        ConsciousnessField.laplacian st1.field 0 0) := by
    have hpc : (0 : ℝ) ≤ ConsciousnessField.PHI_CONJUGATE := by
      rw [ConsciousnessField.PHI_CONJUGATE]
      norm_num
    have habs0 := Complex.abs.nonneg (st1.field 0 0 + ((1000000 : ℝ) : ℂ) *
      ConsciousnessField.laplacian st1.field 0 0)
    nlinarith
  have htan := ConsciousnessField.tanh_ge_third hy
  have hfinal : 10 < Complex.abs
      ((ConsciousnessField.propagate st1 1000000).field 0 0) := by
    rw [ConsciousnessField.propagate_field_eq, map_mul, map_mul,
      Complex.abs_ofReal, Complex.abs_ofReal,
      abs_of_nonneg (by linarith : (0 : ℝ) ≤ Real.tanh (1 +
        ConsciousnessField.PHI_CONJUGATE *
        Complex.abs (st1.field 0 0 + ((1000000 : ℝ) : ℂ) *
          ConsciousnessField.laplacian st1.field 0 0))),
      show |(0.999 : ℝ)| = 0.999 by norm_num]
    have p1 : (39602 : ℝ) * (1 / 3) ≤ Complex.abs (st1.field 0 0 +
        ((1000000 : ℝ) : ℂ) * ConsciousnessField.laplacian st1.field 0 0) *
        Real.tanh (1 + ConsciousnessField.PHI_CONJUGATE *
          Complex.abs (st1.field 0 0 + ((1000000 : ℝ) : ℂ) *
            ConsciousnessField.laplacian st1.field 0 0)) :=
      mul_le_mul habs htan (by norm_num) (Complex.abs.nonneg _)
    have p2 := mul_le_mul_of_nonneg_right p1 (by norm_num : (0 : ℝ) ≤ 0.999)
    have hlow : (10 : ℝ) < 39602 * (1 / 3) * 0.999 := by norm_num
    linarith
  exact lt_of_lt_of_le hfinal
    (ConsciousnessField.abs_le_maxAmplitude (ConsciousnessField.propagate st1 1000000) 0 0)
